import Mathlib

/-!
# Verification of the `hedged` package (Go)

A shallow embedding of `hedged.go`, the hedged-request executor.  The
Go function under study is:

```go
func RunN(ctx context.Context, wait time.Duration, n int, r Request) interface{} {
    var wg sync.WaitGroup
    var v interface{}
    newCtx, done := context.WithCancel(ctx)
    ch := make(chan interface{}, n)
    sent := 0
    for {
        if sent <= n {
            sent++
            wg.Add(1)
            go func() {
                res, err := r.Req(newCtx)
                if err != nil { ch <- err } else { ch <- res }
                wg.Done()
            }()
        }
        select {
        case v = <-ch: goto Done
        case <-ctx.Done(): v = ctx.Err(); goto Done
        case <-time.After(wait): continue
        }
    }
Done:
    done()
    go func() { wg.Wait(); close(ch) }()
    return v
}
```

The timing and goroutine interleaving are abstracted into a *schedule*:
a list of race events, one per loop iteration, recording which `select`
arm fired.  Everything else — the launch guard, the attempt body, the
channel capacity, the cleanup barrier — is translated directly.
-/

namespace Hedged

/-- Model of a Go `error` value carried inside an `interface{}`.
`ctxCanceled` stands for `context.Canceled` (what `ctx.Err()` returns
once the caller's context is cancelled); `other` covers every
task-specific error, distinguished by an arbitrary code. -/
inductive GoError where
  | ctxCanceled
  | deadlineExceeded
  | other (code : Nat)
deriving DecidableEq, Repr

/-- Model of a Go `interface{}` value as handled by the package: the
untyped `nil`, strings and integers (the dynamic types used by the
repository's tests), and error values.  An `err e` is an ordinary
value wrapped in the empty interface — exactly as in Go, where an
`error` stored in an `interface{}` is just another value. -/
inductive GoValue where
  | nil
  | str (s : String)
  | intV (i : Int)
  | err (e : GoError)
deriving DecidableEq, Repr

/-- Model of a Go `context.Context` restricted to the operations the
package exercises: `context.TODO()`/`Background()`, `context.WithValue`
and `context.WithCancel`.  `withCancel` is the derived cancellation
scope `RunN` creates; its `Done`/`Err` behaviour is carried by the
schedule below, while its `Value` lookup delegates to the parent, as in
the Go standard library. -/
inductive Ctx where
  | todo
  | withValue (parent : Ctx) (key val : GoValue)
  | withCancel (parent : Ctx)
deriving DecidableEq, Repr

/-- `Ctx.value c k` models Go's `c.Value(k)`: `withValue` answers for
its own key and otherwise asks the parent; a `withCancel` context
always asks the parent; the root holds no values. -/
def Ctx.value : Ctx → GoValue → Option GoValue
  | .todo, _ => none
  | .withValue p k v, key => if key = k then some v else p.value key
  | .withCancel p, key => p.value key

/-- Model of the `Request` interface.  `Req` may be invoked several
times per run and the implementations in the repository are stateful
(they count their invocations), so an attempt's behaviour is indexed
by its launch order: `r i c` is the `(interface{}, error)` pair that
the `i`-th invocation of `r.Req` returns when handed context `c`. -/
abbrev Request : Type := Nat → Ctx → GoValue × Option GoError

/-- Body of one attempt goroutine, up to the channel send:
`res, err := r.Req(newCtx); if err != nil { ch <- err } else { ch <- res }`.
The value that attempt `i` delivers to the result channel. -/
def attemptValue (r : Request) (i : Nat) (newCtx : Ctx) : GoValue :=
  match r i newCtx with
  | (_, some e) => GoValue.err e
  | (res, none) => res

/-- One firing of the three-way `select` in the race loop: an outcome
of attempt `i` is received from `ch`; the caller's `ctx.Done()` fires;
or `time.After(wait)` elapses (the hedge tick). -/
inductive RaceEvent where
  | outcome (i : Nat)
  | cancel
  | tick
deriving DecidableEq, Repr

/-- How the race was resolved: by draining attempt `i`'s outcome from
the channel, or by the caller's cancellation signal. -/
inductive Winner where
  | drained (i : Nat)
  | cancelled
deriving DecidableEq, Repr

/-- State of one `RunN` invocation when the race loop stops consuming
events: how many attempts were launched (`sent`), the context passed to
each `r.Req` invocation in launch order (`reqCtxs`), how the race was
resolved (`winner`, `none` when the schedule ran out before any arm
resolved the race — the loop is still blocked in `select`), and the Go
variable `v` (`nil` until first assigned). -/
structure LoopResult where
  sent : Nat
  reqCtxs : List Ctx
  winner : Option Winner
  value : GoValue
deriving DecidableEq, Repr

/-- The race loop of `RunN`, driven by a schedule.  Each iteration
first runs the launch guard `if sent <= n { sent++; go attempt }`,
then consumes one event for the `select`: a drained outcome or the
caller's cancellation resolves the race (`goto Done`); a tick
continues the loop.  An `outcome i` event is only meaningful for an
attempt already launched (`i < sent` after the guard); a schedule
naming an unlaunched attempt describes no real execution and is mapped
to an unresolved loop. -/
def runLoop (r : Request) (newCtx : Ctx) (ctxErr : GoError) (n : Nat) :
    Nat → List Ctx → List RaceEvent → LoopResult
  | sent, acc, [] => ⟨sent, acc, none, GoValue.nil⟩
  | sent, acc, ev :: es =>
    let sent' := if sent ≤ n then sent + 1 else sent
    let acc' := if sent ≤ n then acc ++ [newCtx] else acc
    match ev with
    | .outcome i =>
        if i < sent' then ⟨sent', acc', some (.drained i), attemptValue r i newCtx⟩
        else ⟨sent', acc', none, GoValue.nil⟩
    | .cancel => ⟨sent', acc', some .cancelled, GoValue.err ctxErr⟩
    | .tick => runLoop r newCtx ctxErr n sent' acc' es

/-- The Go runtime panic raised by `make(chan interface{}, n)` when
`n` is negative. -/
inductive GoPanic where
  | makechanSizeOutOfRange
deriving DecidableEq, Repr

/-- `RunN(ctx, wait, n, r)`.  `ctxErr` is what `ctx.Err()` reports once
the caller's context is done (`context.Canceled` or
`context.DeadlineExceeded`); `events` is the schedule resolving the
nondeterminism of `select`.  `make(chan interface{}, n)` panics on a
negative capacity before the loop is entered, hence before any attempt
is launched; otherwise the loop runs with the derived scope
`context.WithCancel(ctx)` handed to every attempt.  `wait` only sets
the real-time pace of `tick` events and does not otherwise enter the
semantics. -/
def RunN (c : Ctx) (wait : Nat) (n : Int) (r : Request) (ctxErr : GoError)
    (events : List RaceEvent) : Except GoPanic LoopResult :=
  if n < 0 then Except.error GoPanic.makechanSizeOutOfRange
  else Except.ok (runLoop r (Ctx.withCancel c) ctxErr n.toNat 0 [] events)

/-- `Run(ctx, wait, r)`: the source delegates to `RunN(ctx, wait, 1, r)`. -/
def Run (c : Ctx) (wait : Nat) (r : Request) (ctxErr : GoError)
    (events : List RaceEvent) : Except GoPanic LoopResult :=
  RunN c wait 1 r ctxErr events

/-! ## The result channel after resolution

Each launched attempt performs exactly one send on `ch`.  The race loop
receives from `ch` exactly once if it resolved by draining an outcome
and never otherwise — every non-final iteration consumed a tick, and
after `goto Done` the only remaining operation on `ch` is `close` in
the cleanup goroutine.  On a Go channel of capacity `cap` on which
exactly `recvs` receives are ever performed, at most `cap + recvs`
sends can complete; any further sender blocks forever. -/

/-- Number of receives `RunN` ever performs on the result channel. -/
def receives (res : LoopResult) : Nat :=
  match res.winner with
  | some (.drained _) => 1
  | _ => 0

/-- How many of `sends` pending channel sends complete, on a channel of
capacity `cap` on which `recvs` receives are ever performed. -/
def sendsCompleted (cap sends recvs : Nat) : Nat :=
  min sends (cap + recvs)

/-- Attempt goroutines of a resolved run that stay blocked forever in
`ch <- ...`: launched attempts whose send can never complete. -/
def blockedProducers (n : Nat) (res : LoopResult) : Nat :=
  res.sent - sendsCompleted n res.sent (receives res)

/-- What `RunN` does after `goto Done`: call `done()` (once — both exit
paths flow to the single `Done:` label), then spawn
`go func() { wg.Wait(); close(ch) }()`.  An attempt reaches `wg.Done()`
exactly when its channel send has completed, so the barrier count of
acknowledged attempts equals the number of completed sends, and
`close(ch)` runs exactly when every launched attempt has signalled. -/
structure Cleanup where
  revokeCalls : Nat
  doneSignals : Nat
  chClosed : Bool
deriving DecidableEq, Repr

/-- The cleanup state that a resolved run of capacity-`n` `RunN`
eventually reaches. -/
def finalize (n : Nat) (res : LoopResult) : Cleanup :=
  { revokeCalls := 1
  , doneSignals := sendsCompleted n res.sent (receives res)
  , chClosed := sendsCompleted n res.sent (receives res) == res.sent }

/-! ## Concrete tasks, mirroring the repository's test tasks -/

/-- A task that always succeeds immediately with the string "howdy"
(the shape of the benchmark task `str` in the test file). -/
def rHowdy : Request := fun _ _ => (GoValue.str "howdy", none)

/-- A task whose `i`-th invocation returns the integer `i` (the shape
of the stateful `slowOdds` task in the test file). -/
def rIndex : Request := fun i _ => (GoValue.intV i, none)

/-- A task whose every invocation fails with a fixed task error. -/
def rFail : Request := fun _ _ => (GoValue.nil, some (GoError.other 7))

/-- A task that reads the caller-supplied context value under the key
321 (the shape of the `c` task in `TestContext`). -/
def rCtxKey : Request := fun _ c =>
  match c.value (GoValue.intV 321) with
  | some v => (v, none)
  | none => (GoValue.nil, none)

/-! ## Basic lemmas about the race loop -/

/-- Unfolding `RunN` at a non-negative hedge count. -/
theorem RunN_natCast (c : Ctx) (wait n : Nat) (r : Request) (ce : GoError)
    (es : List RaceEvent) :
    RunN c wait (n : Int) r ce es =
      Except.ok (runLoop r (Ctx.withCancel c) ce n 0 [] es) := by
  simp [RunN]

/-- The launch counter never exceeds `n + 1`: the guard `if sent <= n`
stops launching as soon as `sent` reaches `n + 1`. -/
theorem runLoop_sent_le (r : Request) (nc : Ctx) (ce : GoError) (n : Nat) :
    ∀ (es : List RaceEvent) (sent : Nat) (acc : List Ctx), sent ≤ n + 1 →
      (runLoop r nc ce n sent acc es).sent ≤ n + 1 := by
  intro es
  induction es with
  | nil => intro sent acc h; exact h
  | cons ev es ih =>
    intro sent acc h
    cases ev with
    | outcome i =>
      simp only [runLoop]
      split_ifs <;> simp <;> omega
    | cancel =>
      simp only [runLoop]
      split_ifs <;> omega
    | tick =>
      simp only [runLoop]
      split_ifs with h1
      · exact ih (sent + 1) _ (by omega)
      · exact ih sent _ h

/-- Every context the loop hands to an `r.Req` invocation is the one
`newCtx` it was given. -/
theorem runLoop_reqCtxs_eq (r : Request) (nc : Ctx) (ce : GoError) (n : Nat) :
    ∀ (es : List RaceEvent) (sent : Nat) (acc : List Ctx),
      (∀ c ∈ acc, c = nc) →
      ∀ c ∈ (runLoop r nc ce n sent acc es).reqCtxs, c = nc := by
  intro es
  induction es with
  | nil => intro sent acc h; exact h
  | cons ev es ih =>
    intro sent acc h
    have hacc2 : ∀ c ∈ acc ++ [nc], c = nc := by
      intro x hx
      rcases List.mem_append.1 hx with hx1 | hx1
      · exact h x hx1
      · simpa using hx1
    cases ev with
    | outcome i =>
      simp only [runLoop]
      split_ifs
      · exact hacc2
      · exact hacc2
      · exact h
      · exact h
    | cancel =>
      simp only [runLoop]
      split_ifs
      · exact hacc2
      · exact h
    | tick =>
      simp only [runLoop]
      split_ifs with h1
      · exact ih (sent + 1) _ hacc2
      · exact ih sent _ h

/-- The number of `r.Req` invocations recorded equals the final value
of the `sent` counter. -/
theorem runLoop_reqCtxs_length (r : Request) (nc : Ctx) (ce : GoError) (n : Nat) :
    ∀ (es : List RaceEvent) (sent : Nat) (acc : List Ctx), acc.length = sent →
      (runLoop r nc ce n sent acc es).reqCtxs.length =
        (runLoop r nc ce n sent acc es).sent := by
  intro es
  induction es with
  | nil => intro sent acc h; exact h
  | cons ev es ih =>
    intro sent acc h
    cases ev with
    | outcome i =>
      simp only [runLoop]
      split_ifs <;> simp_all
    | cancel =>
      simp only [runLoop]
      split_ifs <;> simp_all
    | tick =>
      simp only [runLoop]
      split_ifs with h1
      · exact ih (sent + 1) _ (by simp [h])
      · exact ih sent _ h

/-- Through a prefix of ticks, a `cancel` firing resolves the race as
`cancelled` and sets `v = ctx.Err()`. -/
theorem runLoop_cancel_resolves (r : Request) (nc : Ctx) (ce : GoError) (n : Nat) :
    ∀ (pre : List RaceEvent), (∀ e ∈ pre, e = RaceEvent.tick) →
    ∀ (sent : Nat) (acc : List Ctx) (rest : List RaceEvent),
      (runLoop r nc ce n sent acc
          (pre ++ RaceEvent.cancel :: rest)).winner = some Winner.cancelled ∧
      (runLoop r nc ce n sent acc
          (pre ++ RaceEvent.cancel :: rest)).value = GoValue.err ce := by
  intro pre
  induction pre with
  | nil =>
    intro _ sent acc rest
    constructor <;> simp [runLoop]
  | cons e pre ih =>
    intro h sent acc rest
    have he : e = RaceEvent.tick := h e (by simp)
    subst he
    simp only [List.cons_append, runLoop]
    split_ifs <;> exact ih (fun x hx => h x (by simp [hx])) _ _ rest

/-- A race resolved by caller cancellation never consults the task:
the whole loop result is independent of `r`. -/
theorem runLoop_cancel_req_free (r r' : Request) (nc : Ctx) (ce : GoError) (n : Nat) :
    ∀ (pre : List RaceEvent), (∀ e ∈ pre, e = RaceEvent.tick) →
    ∀ (sent : Nat) (acc : List Ctx) (rest : List RaceEvent),
      runLoop r nc ce n sent acc (pre ++ RaceEvent.cancel :: rest) =
      runLoop r' nc ce n sent acc (pre ++ RaceEvent.cancel :: rest) := by
  intro pre
  induction pre with
  | nil => intro _ sent acc rest; rfl
  | cons e pre ih =>
    intro h sent acc rest
    have he : e = RaceEvent.tick := h e (by simp)
    subst he
    simp only [List.cons_append, runLoop]
    split_ifs <;> exact ih (fun x hx => h x (by simp [hx])) _ _ rest

/-- Through a prefix of ticks, the first drained outcome resolves the
race with that attempt's delivered value.  The bound on `i` says the
attempt was launched by the time its outcome is received. -/
theorem runLoop_outcome_resolves (r : Request) (nc : Ctx) (ce : GoError) (n : Nat) :
    ∀ (pre : List RaceEvent), (∀ e ∈ pre, e = RaceEvent.tick) →
    ∀ (sent : Nat) (acc : List Ctx) (rest : List RaceEvent) (i : Nat),
      sent ≤ n + 1 → i < min (sent + pre.length + 1) (n + 1) →
      (runLoop r nc ce n sent acc
          (pre ++ RaceEvent.outcome i :: rest)).winner = some (Winner.drained i) ∧
      (runLoop r nc ce n sent acc
          (pre ++ RaceEvent.outcome i :: rest)).value = attemptValue r i nc := by
  intro pre
  induction pre with
  | nil =>
    intro _ sent acc rest i hs hi
    simp only [List.nil_append, runLoop]
    have hlt : i < if sent ≤ n then sent + 1 else sent := by
      split_ifs with h1 <;> simp at hi <;> omega
    rw [if_pos hlt]
    exact ⟨rfl, rfl⟩
  | cons e pre ih =>
    intro h sent acc rest i hs hi
    have he : e = RaceEvent.tick := h e (by simp)
    subst he
    simp only [List.cons_append, runLoop]
    simp only [List.length_cons] at hi
    split_ifs with h1
    · exact ih (fun x hx => h x (by simp [hx])) _ _ rest i (by omega) (by omega)
    · exact ih (fun x hx => h x (by simp [hx])) _ _ rest i hs (by omega)

/-- Once an iteration resolves the race, the loop exits: events after
the resolving one are never consumed, so the result is the same for
any continuation of the schedule. -/
theorem runLoop_stops_at_resolution (r : Request) (nc : Ctx) (ce : GoError) (n : Nat) :
    ∀ (pre : List RaceEvent), (∀ e ∈ pre, e = RaceEvent.tick) →
    ∀ (ev : RaceEvent), ev ≠ RaceEvent.tick →
    ∀ (sent : Nat) (acc : List Ctx) (rest rest' : List RaceEvent),
      runLoop r nc ce n sent acc (pre ++ ev :: rest) =
      runLoop r nc ce n sent acc (pre ++ ev :: rest') := by
  intro pre
  induction pre with
  | nil =>
    intro _ ev hev sent acc rest rest'
    cases ev with
    | outcome i => rfl
    | cancel => rfl
    | tick => exact absurd rfl hev
  | cons e pre ih =>
    intro h ev hev sent acc rest rest'
    have he : e = RaceEvent.tick := h e (by simp)
    subst he
    simp only [List.cons_append, runLoop]
    split_ifs <;> exact ih (fun x hx => h x (by simp [hx])) ev hev _ _ rest rest'

/-- A race resolved by draining attempt `i` depends on the task only
through invocation `i`: the results of every other (losing) attempt,
values and errors alike, never enter the result. -/
theorem runLoop_outcome_only_winner (r r' : Request) (nc : Ctx) (ce : GoError) (n : Nat)
    (i : Nat) (hagree : r i nc = r' i nc) :
    ∀ (pre : List RaceEvent), (∀ e ∈ pre, e = RaceEvent.tick) →
    ∀ (sent : Nat) (acc : List Ctx) (rest : List RaceEvent),
      runLoop r nc ce n sent acc (pre ++ RaceEvent.outcome i :: rest) =
      runLoop r' nc ce n sent acc (pre ++ RaceEvent.outcome i :: rest) := by
  have hval : attemptValue r i nc = attemptValue r' i nc := by
    unfold attemptValue
    rw [hagree]
  intro pre
  induction pre with
  | nil =>
    intro _ sent acc rest
    simp only [List.nil_append, runLoop]
    split_ifs <;> simp [hval]
  | cons e pre ih =>
    intro h sent acc rest
    have he : e = RaceEvent.tick := h e (by simp)
    subst he
    simp only [List.cons_append, runLoop]
    split_ifs <;> exact ih (fun x hx => h x (by simp [hx])) _ _ rest

/-! ## The claims -/

/-- C1: the claim asserts that at most `n` outcomes ever remain
buffered in the result channel after the race resolves, so that no
attempt goroutine blocks on its send and the channel is eventually
closed — *including* the run in which all `n + 1` attempts are launched
and the race resolves via caller cancellation with no outcome drained.
This is refuted on the code at `n = 1` with schedule
`[tick, cancel]`: the wait tick launches the hedge, so both attempts
are launched, then the caller's context fires before any outcome is
drained.  Both attempts must send on the capacity-1 channel, no receive
ever happens after resolution, so one producer blocks in `ch <-`
forever, `wg.Done()` is never reached, `wg.Wait()` never returns and
`close(ch)` never runs. -/
theorem C1_cancellation_leak :
    (runLoop rHowdy (Ctx.withCancel Ctx.todo) GoError.ctxCanceled 1 0 []
        [RaceEvent.tick, RaceEvent.cancel]).sent = 2 ∧
    receives (runLoop rHowdy (Ctx.withCancel Ctx.todo) GoError.ctxCanceled 1 0 []
        [RaceEvent.tick, RaceEvent.cancel]) = 0 ∧
    blockedProducers 1 (runLoop rHowdy (Ctx.withCancel Ctx.todo) GoError.ctxCanceled 1 0 []
        [RaceEvent.tick, RaceEvent.cancel]) = 1 ∧
    (finalize 1 (runLoop rHowdy (Ctx.withCancel Ctx.todo) GoError.ctxCanceled 1 0 []
        [RaceEvent.tick, RaceEvent.cancel])).chClosed = false :=
  ⟨rfl, rfl, rfl, rfl⟩

/-- C2: exactly one outcome is returned per call — the race resolves
with the first outcome received from the result channel (that
attempt's delivered value), or with the caller-cancellation error if
that is observed first; events after the resolving one are never
consumed (the loop has exited), and when an outcome wins, every
remaining attempt's outcome fits into the buffered channel (no
producer blocks, the channel closes) and is never returned. -/
theorem C2_first_outcome_returned (c : Ctx) (wait n : Nat) (r : Request) (ce : GoError)
    (pre rest rest' : List RaceEvent) (i : Nat)
    (hpre : ∀ e ∈ pre, e = RaceEvent.tick)
    (hi : i < min (pre.length + 1) (n + 1)) :
    RunN c wait n r ce (pre ++ RaceEvent.outcome i :: rest) =
      RunN c wait n r ce (pre ++ RaceEvent.outcome i :: rest') ∧
    (runLoop r (Ctx.withCancel c) ce n 0 []
        (pre ++ RaceEvent.outcome i :: rest)).winner = some (Winner.drained i) ∧
    (runLoop r (Ctx.withCancel c) ce n 0 []
        (pre ++ RaceEvent.outcome i :: rest)).value =
      attemptValue r i (Ctx.withCancel c) ∧
    blockedProducers n (runLoop r (Ctx.withCancel c) ce n 0 []
        (pre ++ RaceEvent.outcome i :: rest)) = 0 ∧
    (finalize n (runLoop r (Ctx.withCancel c) ce n 0 []
        (pre ++ RaceEvent.outcome i :: rest))).chClosed = true ∧
    (runLoop r (Ctx.withCancel c) ce n 0 []
        (pre ++ RaceEvent.cancel :: rest)).value = GoValue.err ce := by
  have hresolve := runLoop_outcome_resolves r (Ctx.withCancel c) ce n pre hpre 0 [] rest i
    (by omega) (by omega)
  have hsent := runLoop_sent_le r (Ctx.withCancel c) ce n
    (pre ++ RaceEvent.outcome i :: rest) 0 [] (by omega)
  have hrec : receives (runLoop r (Ctx.withCancel c) ce n 0 []
      (pre ++ RaceEvent.outcome i :: rest)) = 1 := by
    unfold receives
    rw [hresolve.1]
  refine ⟨?_, hresolve.1, hresolve.2, ?_, ?_,
    (runLoop_cancel_resolves r _ ce n pre hpre 0 [] rest).2⟩
  · rw [RunN_natCast, RunN_natCast,
      runLoop_stops_at_resolution r _ ce n pre hpre (RaceEvent.outcome i) (by simp)
        0 [] rest rest']
  · unfold blockedProducers
    rw [hrec]
    unfold sendsCompleted
    omega
  · simp only [finalize]
    rw [hrec]
    simp only [sendsCompleted, beq_iff_eq]
    omega

theorem C2_first_outcome_returned_witness :
    (runLoop rIndex (Ctx.withCancel Ctx.todo) GoError.ctxCanceled 1 0 []
        ([] ++ RaceEvent.outcome 0 :: [RaceEvent.outcome 1])).value =
      attemptValue rIndex 0 (Ctx.withCancel Ctx.todo) :=
  (C2_first_outcome_returned Ctx.todo 0 1 rIndex GoError.ctxCanceled
    [] [RaceEvent.outcome 1] [] 0 (by simp) (by decide)).2.2.1

/-- C3: for every `n ≥ 0`, wait interval and task behaviour, at most
`n + 1` attempts — invocations of `r.Req` — are launched; and once the
counter has reached `n + 1`, a further elapsed wait tick launches
nothing: the loop merely continues racing on the remaining events. -/
theorem C3_bounded_attempts (c : Ctx) (wait : Nat) (n : Int) (r : Request)
    (ce : GoError) (es : List RaceEvent) (res : LoopResult)
    (hn : 0 ≤ n) (h : RunN c wait n r ce es = Except.ok res) :
    res.sent ≤ n.toNat + 1 ∧
    res.reqCtxs.length ≤ n.toNat + 1 ∧
    (∀ (acc : List Ctx) (es2 : List RaceEvent),
      runLoop r (Ctx.withCancel c) ce n.toNat (n.toNat + 1) acc
          (RaceEvent.tick :: es2) =
        runLoop r (Ctx.withCancel c) ce n.toNat (n.toNat + 1) acc es2) := by
  have hres : res = runLoop r (Ctx.withCancel c) ce n.toNat 0 [] es := by
    simp only [RunN, if_neg (Int.not_lt.2 hn)] at h
    exact (Except.ok.inj h).symm
  subst hres
  refine ⟨runLoop_sent_le r _ ce n.toNat es 0 [] (by omega), ?_, ?_⟩
  · rw [runLoop_reqCtxs_length r _ ce n.toNat es 0 [] rfl]
    exact runLoop_sent_le r _ ce n.toNat es 0 [] (by omega)
  · intro acc es2
    simp only [runLoop]
    rw [if_neg (by omega), if_neg (by omega)]

theorem C3_bounded_attempts_witness :
    (runLoop rHowdy (Ctx.withCancel Ctx.todo) GoError.ctxCanceled 1 0 []
        [RaceEvent.tick, RaceEvent.tick, RaceEvent.tick]).sent ≤ 2 :=
  (C3_bounded_attempts Ctx.todo 5 1 rHowdy GoError.ctxCanceled
    [RaceEvent.tick, RaceEvent.tick, RaceEvent.tick]
    (runLoop rHowdy (Ctx.withCancel Ctx.todo) GoError.ctxCanceled 1 0 []
      [RaceEvent.tick, RaceEvent.tick, RaceEvent.tick])
    (by norm_num) rfl).1

/-- C4: if the caller's context fires before any attempt's outcome is
observed, `RunN` returns `ctx.Err()` — the caller-cancelled error; the
whole result is independent of the task (no attempt is consulted), and
when the caller's context is already cancelled at entry (a `cancel`
event in the very first iteration), the first race iteration resolves
immediately to the caller-cancelled error with only the primary attempt
launched and not waited for. -/
theorem C4_caller_cancelled (c : Ctx) (wait n : Nat) (r r' : Request) (ce : GoError)
    (pre rest : List RaceEvent) (hpre : ∀ e ∈ pre, e = RaceEvent.tick) :
    (runLoop r (Ctx.withCancel c) ce n 0 []
        (pre ++ RaceEvent.cancel :: rest)).value = GoValue.err ce ∧
    (runLoop r (Ctx.withCancel c) ce n 0 []
        (pre ++ RaceEvent.cancel :: rest)).winner = some Winner.cancelled ∧
    RunN c wait n r ce (pre ++ RaceEvent.cancel :: rest) =
      RunN c wait n r' ce (pre ++ RaceEvent.cancel :: rest) ∧
    RunN c wait n r ce (RaceEvent.cancel :: rest) =
      Except.ok ⟨1, [Ctx.withCancel c], some Winner.cancelled, GoValue.err ce⟩ := by
  refine ⟨(runLoop_cancel_resolves r _ ce n pre hpre 0 [] rest).2,
          (runLoop_cancel_resolves r _ ce n pre hpre 0 [] rest).1, ?_, ?_⟩
  · rw [RunN_natCast, RunN_natCast,
      runLoop_cancel_req_free r r' _ ce n pre hpre 0 [] rest]
  · rw [RunN_natCast]
    simp [runLoop]

theorem C4_caller_cancelled_witness :
    (runLoop rHowdy (Ctx.withCancel Ctx.todo) GoError.ctxCanceled 0 0 []
        ([] ++ RaceEvent.cancel :: [])).value = GoValue.err GoError.ctxCanceled :=
  (C4_caller_cancelled Ctx.todo 5 0 rHowdy rFail GoError.ctxCanceled [] []
    (by simp)).1

/-- C5: an attempt that completes first with an error wins the race
exactly as a success would: its error is the returned outcome; events
after the resolving one never replace it; and the results of every
other (losing) attempt — in particular their errors, including those
produced after resolution — are discarded without affecting the
outcome. -/
theorem C5_error_wins (c : Ctx) (wait n : Nat) (r r' : Request) (ce : GoError)
    (pre rest rest' : List RaceEvent) (i : Nat) (res0 : GoValue) (e : GoError)
    (hpre : ∀ e ∈ pre, e = RaceEvent.tick)
    (hi : i < min (pre.length + 1) (n + 1))
    (herr : r i (Ctx.withCancel c) = (res0, some e))
    (hagree : r i (Ctx.withCancel c) = r' i (Ctx.withCancel c)) :
    (runLoop r (Ctx.withCancel c) ce n 0 []
        (pre ++ RaceEvent.outcome i :: rest)).value = GoValue.err e ∧
    runLoop r (Ctx.withCancel c) ce n 0 [] (pre ++ RaceEvent.outcome i :: rest) =
      runLoop r (Ctx.withCancel c) ce n 0 [] (pre ++ RaceEvent.outcome i :: rest') ∧
    runLoop r (Ctx.withCancel c) ce n 0 [] (pre ++ RaceEvent.outcome i :: rest) =
      runLoop r' (Ctx.withCancel c) ce n 0 [] (pre ++ RaceEvent.outcome i :: rest) := by
  have hresolve := runLoop_outcome_resolves r (Ctx.withCancel c) ce n pre hpre 0 [] rest i
    (by omega) (by omega)
  refine ⟨?_, ?_, ?_⟩
  · rw [hresolve.2]
    unfold attemptValue
    rw [herr]
  · exact runLoop_stops_at_resolution r _ ce n pre hpre _ (by simp) 0 [] rest rest'
  · exact runLoop_outcome_only_winner r r' _ ce n i hagree pre hpre 0 [] rest

theorem C5_error_wins_witness :
    (runLoop rFail (Ctx.withCancel Ctx.todo) GoError.ctxCanceled 1 0 []
        ([] ++ RaceEvent.outcome 0 :: [])).value = GoValue.err (GoError.other 7) :=
  (C5_error_wins Ctx.todo 5 1 rFail rFail GoError.ctxCanceled [] [] [] 0 GoValue.nil
    (GoError.other 7) (by simp) (by decide) rfl rfl).1

/-- C6: on every exit path — first drained outcome or caller
cancellation — the race resolves and `RunN` returns the resolved
outcome, its value being the race result alone (not conditioned on the
background cleanup finishing); the derived scope's `done()` is executed
exactly once after resolution; and the result channel is closed only
once the completion barrier has been signalled by every launched
attempt. -/
theorem C6_resolution_cleanup (c : Ctx) (wait n : Nat) (r : Request) (ce : GoError)
    (pre rest : List RaceEvent) (ev : RaceEvent)
    (hpre : ∀ e ∈ pre, e = RaceEvent.tick)
    (hev : ev = RaceEvent.cancel ∨
           ∃ i, ev = RaceEvent.outcome i ∧ i < min (pre.length + 1) (n + 1)) :
    ∃ res : LoopResult,
      RunN c wait n r ce (pre ++ ev :: rest) = Except.ok res ∧
      res.winner.isSome = true ∧
      (finalize n res).revokeCalls = 1 ∧
      ((finalize n res).chClosed = true →
        (finalize n res).doneSignals = res.sent) := by
  refine ⟨runLoop r (Ctx.withCancel c) ce n 0 [] (pre ++ ev :: rest),
          RunN_natCast c wait n r ce _, ?_, rfl, ?_⟩
  · rcases hev with h | ⟨i, h, hi⟩
    · subst h
      rw [(runLoop_cancel_resolves r _ ce n pre hpre 0 [] rest).1]
      rfl
    · subst h
      rw [(runLoop_outcome_resolves r _ ce n pre hpre 0 [] rest i (by omega)
        (by omega)).1]
      rfl
  · intro h
    simp only [finalize, beq_iff_eq] at h ⊢
    exact h

theorem C6_resolution_cleanup_witness :
    ∃ res : LoopResult,
      RunN Ctx.todo 5 1 rHowdy GoError.ctxCanceled
          ([] ++ RaceEvent.outcome 0 :: []) = Except.ok res ∧
      res.winner.isSome = true ∧
      (finalize 1 res).revokeCalls = 1 ∧
      ((finalize 1 res).chClosed = true → (finalize 1 res).doneSignals = res.sent) :=
  C6_resolution_cleanup Ctx.todo 5 1 rHowdy GoError.ctxCanceled [] []
    (RaceEvent.outcome 0) (by simp) (Or.inr ⟨0, rfl, by decide⟩)

/-- C7: `Run(ctx, wait, r)` is exactly the `maxHedges = 1` instance of
`RunN`: for every context, wait duration, task, caller error and
schedule it returns precisely what `RunN(ctx, wait, 1, r)` returns. -/
theorem C7_run_is_runN_one (c : Ctx) (wait : Nat) (r : Request) (ce : GoError)
    (es : List RaceEvent) :
    Run c wait r ce es = RunN c wait 1 r ce es := rfl

/-- C8: every attempt receives the context derived from the caller's
context by `context.WithCancel`, and that derived context preserves
every attached value: any key bound in the caller's context is visible
through the context handed to each `r.Req` invocation. -/
theorem C8_ctx_value_propagation (c : Ctx) (wait n : Nat) (r : Request) (ce : GoError)
    (es : List RaceEvent) (res : LoopResult)
    (h : RunN c wait n r ce es = Except.ok res) :
    ∀ cc ∈ res.reqCtxs, cc = Ctx.withCancel c ∧
      ∀ key v, c.value key = some v → cc.value key = some v := by
  have hres : res = runLoop r (Ctx.withCancel c) ce n 0 [] es := by
    rw [RunN_natCast] at h
    exact (Except.ok.inj h).symm
  subst hres
  intro cc hcc
  have hcc2 : cc = Ctx.withCancel c :=
    runLoop_reqCtxs_eq r (Ctx.withCancel c) ce n es 0 [] (by simp) cc hcc
  refine ⟨hcc2, ?_⟩
  intro key v hv
  rw [hcc2]
  simpa [Ctx.value] using hv

theorem C8_ctx_value_propagation_witness :
    (Ctx.withCancel (Ctx.withValue Ctx.todo (GoValue.intV 321)
        (GoValue.str "howdy"))).value (GoValue.intV 321) =
      some (GoValue.str "howdy") :=
  ((C8_ctx_value_propagation
      (Ctx.withValue Ctx.todo (GoValue.intV 321) (GoValue.str "howdy"))
      5 1 rCtxKey GoError.ctxCanceled [RaceEvent.outcome 0]
      (runLoop rCtxKey
        (Ctx.withCancel (Ctx.withValue Ctx.todo (GoValue.intV 321)
          (GoValue.str "howdy")))
        GoError.ctxCanceled 1 0 [] [RaceEvent.outcome 0])
      rfl)
    (Ctx.withCancel (Ctx.withValue Ctx.todo (GoValue.intV 321)
      (GoValue.str "howdy")))
    (by decide)).2 (GoValue.intV 321) (GoValue.str "howdy") (by decide)

/-- C9: for every negative `n`, `RunN` panics at
`make(chan interface{}, n)` — before entering the loop, so before any
attempt is launched; in particular the result is independent of the
request, whose `Req` is never invoked. -/
theorem C9_negative_n_panics (c : Ctx) (wait : Nat) (n : Int) (r r' : Request)
    (ce : GoError) (es : List RaceEvent) (hn : n < 0) :
    RunN c wait n r ce es = Except.error GoPanic.makechanSizeOutOfRange ∧
    RunN c wait n r ce es = RunN c wait n r' ce es := by
  constructor <;> simp [RunN, hn]

theorem C9_negative_n_panics_witness :
    RunN Ctx.todo 5 (-1) rHowdy GoError.ctxCanceled [RaceEvent.tick] =
      Except.error GoPanic.makechanSizeOutOfRange :=
  (C9_negative_n_panics Ctx.todo 5 (-1) rHowdy rFail GoError.ctxCanceled
    [RaceEvent.tick] (by norm_num)).1

/-- C10: the outcome is an untagged value: a winning attempt that
returns `(res, nil)` delivers `res` itself — including `res = nil` and
`res` of an error dynamic type — while one returning `(res, err)` with
non-nil `err` delivers `err` and discards `res`; a success carrying an
error value is therefore indistinguishable from a failing attempt
carrying the same error. -/
theorem C10_untagged_outcome (c : Ctx) (wait n : Nat) (r : Request) (ce : GoError)
    (pre rest : List RaceEvent) (i : Nat)
    (hpre : ∀ e ∈ pre, e = RaceEvent.tick)
    (hi : i < min (pre.length + 1) (n + 1)) :
    (∀ res0 : GoValue, r i (Ctx.withCancel c) = (res0, none) →
      (runLoop r (Ctx.withCancel c) ce n 0 []
          (pre ++ RaceEvent.outcome i :: rest)).value = res0) ∧
    (∀ (res0 : GoValue) (e : GoError), r i (Ctx.withCancel c) = (res0, some e) →
      (runLoop r (Ctx.withCancel c) ce n 0 []
          (pre ++ RaceEvent.outcome i :: rest)).value = GoValue.err e) ∧
    (∀ e : GoError,
      attemptValue (fun _ _ => (GoValue.err e, none)) i (Ctx.withCancel c) =
        attemptValue (fun _ _ => (GoValue.nil, some e)) i (Ctx.withCancel c)) := by
  have hresolve := runLoop_outcome_resolves r (Ctx.withCancel c) ce n pre hpre 0 [] rest i
    (by omega) (by omega)
  refine ⟨?_, ?_, fun e => rfl⟩
  · intro res0 h
    rw [hresolve.2]
    unfold attemptValue
    rw [h]
  · intro res0 e h
    rw [hresolve.2]
    unfold attemptValue
    rw [h]

theorem C10_untagged_outcome_witness :
    (runLoop rHowdy (Ctx.withCancel Ctx.todo) GoError.ctxCanceled 1 0 []
        ([] ++ RaceEvent.outcome 0 :: [])).value = GoValue.str "howdy" :=
  (C10_untagged_outcome Ctx.todo 5 1 rHowdy GoError.ctxCanceled [] [] 0
    (by simp) (by decide)).1 (GoValue.str "howdy") rfl

end Hedged
